import Mathlib

/-!
# solutions_search_cli: a shallow embedding and its verified properties

The program is a Go command-line client (`src/solutions_search_cli.go`).
Go strings are byte sequences, so a string is modelled as the list of its
bytes (each a natural number below 256) and `len(s)` is the length of that
list. Library calls whose result the program only consumes (the HTTP round
trip, the JSON decoder, `%v` formatting of a float) are inputs of the model.
-/

namespace SolutionsSearchCli

set_option maxRecDepth 8000

/-! ## Strings -/

/-- A Go string: its bytes, in order. -/
abbrev GoString := List Nat

/-- UTF-8 encoding of one code point, as Go stores it in a string. -/
def encodeRune (c : Char) : GoString :=
  let n := c.toNat
  if n < 0x80 then [n]
  else if n < 0x800 then [0xC0 + n / 64, 0x80 + n % 64]
  else if n < 0x10000 then [0xE0 + n / 4096, 0x80 + n / 64 % 64, 0x80 + n % 64]
  else [0xF0 + n / 262144, 0x80 + n / 4096 % 64, 0x80 + n / 64 % 64, 0x80 + n % 64]

/-- The bytes of a string literal of the source. -/
def bytes (s : String) : GoString := s.toList.flatMap encodeRune

/-- Number of code points of a well-formed UTF-8 string (`utf8.RuneCountInString`):
every byte that is not a continuation byte `10xxxxxx` starts one. -/
def runeCount (s : GoString) : Nat := (s.filter (fun b => b / 64 ≠ 2)).length

/-- Go `strings.HasPrefix`. -/
def HasPrefix (s pre : GoString) : Bool := pre.isPrefixOf s

/-- Go `strings.TrimPrefix`: drops `pre` once when `s` starts with it. -/
def TrimPrefix (s pre : GoString) : GoString :=
  if HasPrefix s pre then s.drop pre.length else s

/-- Go `strings.Repeat` of a one-byte string. -/
def Repeat (b : Nat) (count : Nat) : GoString := List.replicate count b

/-- The byte sequences that `unicode.IsSpace` accepts once decoded: the six
ASCII blanks, U+0085, U+00A0, U+1680, U+2000..U+200A, U+2028, U+2029,
U+202F, U+205F and U+3000, each in its UTF-8 encoding. -/
def spaceSeqs : List GoString :=
  [[0x09], [0x0A], [0x0B], [0x0C], [0x0D], [0x20],
   [0xC2, 0x85], [0xC2, 0xA0], [0xE1, 0x9A, 0x80],
   [0xE2, 0x80, 0x80], [0xE2, 0x80, 0x81], [0xE2, 0x80, 0x82], [0xE2, 0x80, 0x83],
   [0xE2, 0x80, 0x84], [0xE2, 0x80, 0x85], [0xE2, 0x80, 0x86], [0xE2, 0x80, 0x87],
   [0xE2, 0x80, 0x88], [0xE2, 0x80, 0x89], [0xE2, 0x80, 0x8A],
   [0xE2, 0x80, 0xA8], [0xE2, 0x80, 0xA9], [0xE2, 0x80, 0xAF],
   [0xE2, 0x81, 0x9F], [0xE3, 0x80, 0x80]]

/-- Width in bytes of the white-space rune `s` starts with, `0` when it starts
with none. -/
def leadingSpaceWidth (s : GoString) : Nat :=
  match spaceSeqs.find? (fun q => q.isPrefixOf s) with
  | some q => q.length
  | none => 0

/-- Width in bytes of the white-space rune `s` ends with, `0` when it ends
with none. -/
def trailingSpaceWidth (s : GoString) : Nat :=
  match spaceSeqs.find? (fun q => q.reverse.isPrefixOf s.reverse) with
  | some q => q.length
  | none => 0

/-- Removes leading white-space runes, one per unit of fuel. -/
def trimLeftAux : Nat → GoString → GoString
  | 0, s => s
  | fuel + 1, s =>
    if leadingSpaceWidth s = 0 then s else trimLeftAux fuel (s.drop (leadingSpaceWidth s))

/-- Removes trailing white-space runes, one per unit of fuel. -/
def trimRightAux : Nat → GoString → GoString
  | 0, s => s
  | fuel + 1, s =>
    if trailingSpaceWidth s = 0 then s
    else trimRightAux fuel (s.take (s.length - trailingSpaceWidth s))

/-- Go `strings.TrimSpace`: all leading, then all trailing white space removed.
Every removed rune is at least one byte, so `len(s)` rounds of each suffice. -/
def TrimSpace (s : GoString) : GoString :=
  let t := trimLeftAux s.length s
  trimRightAux t.length t

/-- Go `strings.Split(s, sep)` for a one-byte separator. -/
def Split (s : GoString) (sep : Nat) : List GoString :=
  match s with
  | [] => [[]]
  | c :: cs =>
    if c = sep then [] :: Split cs sep
    else
      match Split cs sep with
      | [] => [[c]]
      | p :: ps => (c :: p) :: ps

/-- Go `strings.SplitN(s, sep, 2)` for a one-byte separator: the whole string
when `sep` does not occur, else the text before and after its first occurrence. -/
def SplitN2 (s : GoString) (sep : Nat) : List GoString :=
  match s.span (fun b => b != sep) with
  | (a, []) => [a]
  | (a, _ :: b) => [a, b]

/-- Go `strings.Join`. -/
def Join (parts : List GoString) (sep : GoString) : GoString :=
  match parts with
  | [] => []
  | [p] => p
  | p :: q :: rest => p ++ sep ++ Join (q :: rest) sep

/-! ## Term normalisation and padding -/

/-- Source `normalizeTerm`. -/
def normalizeTerm (s : GoString) : GoString :=
  let s := if HasPrefix s (bytes "+") then TrimPrefix s (bytes "+") else s
  let s := if s.length < 9 then bytes "#" ++ s else s
  s

/-- Source `padRight`; `width` is a Go `int`. -/
def padRight (s : GoString) (width : Int) : GoString :=
  if width ≤ 0 then s
  else if (s.length : Int) ≥ width then s
  else s ++ Repeat 0x20 (width - s.length).toNat

/-! ## Decoded JSON values and their rendering -/

/-- A finite `float64`: the value `mant * 2 ^ exp`. `encoding/json` decodes
every JSON number of a row into one and rejects numbers out of range, so NaN
and the infinities never reach the program. -/
structure Float64 where
  mant : Int
  exp : Int
deriving DecidableEq

/-- The values of the format: a significand below `2 ^ 53` in magnitude and an
exponent between `-1074` and `971`. -/
def Float64.Valid (t : Float64) : Prop :=
  t.mant.natAbs < 2 ^ 53 ∧ -1074 ≤ t.exp ∧ t.exp ≤ 971

/-- Bound of `int64`: `2 ^ 63`. -/
def two63 : Int := 9223372036854775808

/-- Whether the value is a whole number. -/
def Float64.isIntegral (t : Float64) : Bool :=
  if 0 ≤ t.exp then true else t.mant % ((2 ^ (-t.exp).toNat : Nat) : Int) == 0

/-- The value rounded toward zero. -/
def Float64.trunc (t : Float64) : Int :=
  if 0 ≤ t.exp then t.mant * ((2 ^ t.exp.toNat : Nat) : Int)
  else t.mant.tdiv ((2 ^ (-t.exp).toNat : Nat) : Int)

/-- Whether `-2 ^ 63 ≤ t < 2 ^ 63`, the values `int64(t)` is defined on. -/
def Float64.inInt64Range (t : Float64) : Bool :=
  if 0 ≤ t.exp then
    decide (-two63 ≤ t.mant * ((2 ^ t.exp.toNat : Nat) : Int)
      ∧ t.mant * ((2 ^ t.exp.toNat : Nat) : Int) < two63)
  else
    decide (-two63 * ((2 ^ (-t.exp).toNat : Nat) : Int) ≤ t.mant
      ∧ t.mant < two63 * ((2 ^ (-t.exp).toNat : Nat) : Int))

/-- Go `t == r` for a float `t` and a float of whole value `r`. -/
def Float64.eqInt (t : Float64) (r : Int) : Bool :=
  if 0 ≤ t.exp then t.mant * ((2 ^ t.exp.toNat : Nat) : Int) == r
  else t.mant == r * ((2 ^ (-t.exp).toNat : Nat) : Int)

/-- Number of low bits a natural number below `2 ^ 64` loses when it is
stored in a 53-bit significand. -/
def dropBitsAux : Nat → Nat → Nat
  | 0, _ => 0
  | fuel + 1, n => if n < 2 ^ 53 then 0 else 1 + dropBitsAux fuel (n / 2)

/-- Number of low bits an `int64` magnitude loses in a `float64`: at most 11. -/
def dropBits (n : Nat) : Nat := dropBitsAux 11 n

/-- Nearest value with a 53-bit significand, ties to even. -/
def roundNat53 (n : Nat) : Nat :=
  let k := dropBits n
  let q := n / 2 ^ k
  let r := n % 2 ^ k
  let q := if 2 * r > 2 ^ k ∨ (2 * r = 2 ^ k ∧ q % 2 = 1) then q + 1 else q
  q * 2 ^ k

/-- Go `float64(i)` for an `int64`, as the whole number it denotes. -/
def float64OfInt64 (i : Int) : Int :=
  if i < 0 then -((roundNat53 i.natAbs : Nat) : Int) else ((roundNat53 i.natAbs : Nat) : Int)

/-- A value held by a decoded row (`any`): what `encoding/json` produces, and
`json.Number`, which `stringify` also handles. -/
inductive JVal where
  | null
  | str (s : GoString)
  | num (t : Float64)
  | number (lit : GoString)
  | bool (b : Bool)
  | array (xs : List JVal)
  | object (kvs : List (GoString × JVal))

/-- What the program takes from its runtime: `fmt.Sprintf("%v", v)`, and the
result of `int64(t)` for a float outside the `int64` range, which the language
leaves to the implementation. -/
structure Runtime where
  sprintV : JVal → GoString
  int64OutOfRange : Float64 → Int

/-- Go `int64(t)`. -/
def toInt64 (rt : Runtime) (t : Float64) : Int :=
  if t.inInt64Range then t.trunc else rt.int64OutOfRange t

/-- Decimal digits of `n`, most significant first; one digit per unit of fuel. -/
def decimalDigits : Nat → Nat → GoString
  | 0, n => [0x30 + n % 10]
  | fuel + 1, n =>
    if n < 10 then [0x30 + n] else decimalDigits fuel (n / 10) ++ [0x30 + n % 10]

/-- Decimal digits of a natural number. -/
def fmtNat (n : Nat) : GoString := decimalDigits n n

/-- Go `fmt.Sprintf("%d", i)`. -/
def fmtD (i : Int) : GoString :=
  if i < 0 then bytes "-" ++ fmtNat i.natAbs else fmtNat i.natAbs

/-- Source `stringify`. -/
def stringify (rt : Runtime) : JVal → GoString
  | .null => []
  | .str t => t
  | .number lit => lit
  | .num t =>
    if t.eqInt (float64OfInt64 (toInt64 rt t)) then fmtD (toInt64 rt t)
    else rt.sprintV (.num t)
  | .bool b => rt.sprintV (.bool b)
  | .array xs => rt.sprintV (.array xs)
  | .object kvs => rt.sprintV (.object kvs)

/-- Source `orDash`. -/
def orDash (rt : Runtime) (v : JVal) : GoString :=
  match v with
  | .null => bytes "-"
  | v =>
    let s := TrimSpace (stringify rt v)
    if s = [] then bytes "-" else s

/-- A result row, `map[string]any`. -/
abbrev Row := List (GoString × JVal)

/-- Go `row[key]`: the value stored under `key`, `nil` when the key is absent. -/
def Row.get (row : Row) (key : String) : JVal :=
  match List.lookup (bytes key) row with
  | some v => v
  | none => .null

/-- What the body of the row loop of `queryAndPrint` writes to standard output. -/
def printRow (rt : Runtime) (userIDOnly : Bool) (row : Row) : GoString :=
  if userIDOnly then stringify rt (row.get "userId") ++ bytes "\n"
  else
    let phone := padRight (stringify rt (row.get "phoneNumber")) 14
    let uid := padRight (stringify rt (row.get "userId")) 10
    let name := padRight (stringify rt (row.get "fullName")) 24
    let country := padRight (orDash rt (row.get "countryId")) 4
    let companyID := padRight (orDash rt (row.get "companyId")) 6
    let email := padRight (stringify rt (row.get "email")) 54
    let company := padRight (orDash rt (row.get "companyName")) 32
    phone ++ uid ++ name ++ country ++ companyID ++ email ++ company ++ bytes "\n"

/-! ## Cookies -/

/-- The fields of `http.Cookie` the program sets. -/
structure Cookie where
  Name : GoString
  Value : GoString
  Path : GoString
deriving DecidableEq

/-- The cookies a `cookiejar.Jar` holds for the endpoint URL, in the order
`jar.Cookies(u)` returns them. The program only creates host-only session
cookies with path `/`, which the jar returns in order of creation. -/
abbrev Jar := List Cookie

/-- One cookie stored by `jar.SetCookies`: an entry of the same name and path
is replaced where it stands, a new one goes last. -/
def Jar.setCookie (jar : Jar) (c : Cookie) : Jar :=
  if jar.any (fun e => e.Name == c.Name && e.Path == c.Path) then
    jar.map (fun e => if e.Name == c.Name && e.Path == c.Path then c else e)
  else jar ++ [c]

/-- Go `jar.SetCookies(u, cookies)`. -/
def Jar.SetCookies (jar : Jar) (cookies : List Cookie) : Jar :=
  cookies.foldl Jar.setCookie jar

/-- Go `jar.Cookies(u)`. -/
def Jar.Cookies (jar : Jar) : List Cookie := jar

/-- One round of the loop of `seedJarWithCookieHeader`. -/
def seedStep (cookies : List Cookie) (p : GoString) : List Cookie :=
  let p := TrimSpace p
  if p = [] then cookies
  else
    match SplitN2 p 0x3D with
    | [k, v] =>
      let name := TrimSpace k
      let value := TrimSpace v
      if name = [] then cookies
      else cookies ++ [{ Name := name, Value := value, Path := bytes "/" }]
    | _ => cookies

/-- The slice `cookies` that `seedJarWithCookieHeader` builds from the header. -/
def seedCookies (header : GoString) : List Cookie :=
  (Split header 0x3B).foldl seedStep []

/-- Source `seedJarWithCookieHeader`. -/
def seedJarWithCookieHeader (jar : Jar) (header : GoString) : Jar :=
  let cookies := seedCookies header
  if cookies.length > 0 then jar.SetCookies cookies else jar

/-- Go `fmt.Sprintf("%s=%s", c.Name, c.Value)`. -/
def renderCookie (c : Cookie) : GoString := c.Name ++ bytes "=" ++ c.Value

/-- Source `buildCookieHeaderFromJar`. -/
def buildCookieHeaderFromJar (jar : Jar) : GoString :=
  let cookies := jar.Cookies
  if cookies.length = 0 then []
  else
    let parts := cookies.foldl
      (fun parts c => if c.Name = [] then parts else parts ++ [renderCookie c]) []
    Join parts (bytes "; ")

/-! ## The search call -/

/-- Source `quickSearchReq`, the request body. -/
structure quickSearchReq where
  ServiceProviderID : Int
  SearchKey : GoString
  Start : Int
deriving DecidableEq

/-- Source `httpErr`. -/
structure httpErr where
  status : Int
  body : GoString
deriving DecidableEq

/-- The errors `queryAndPrint` returns: the error of `client.Do`, an `*httpErr`,
or the wrapped error of the JSON decoder. -/
inductive QueryError where
  | transport (msg : GoString)
  | http (e : httpErr)
  | decode (msg : GoString)
deriving DecidableEq

/-- A response as `queryAndPrint` reads it: the status code, the bytes of the
body, and what `json.Decoder.Decode` makes of that body (the rows of `data`, or
its error). -/
structure Response where
  StatusCode : Int
  Body : GoString
  decoded : Except GoString (List Row)

/-- What one call of `client.Do` does: it fails or yields a response, and the
client may have updated the jar from `Set-Cookie` headers on the way. -/
structure Exchange where
  result : Except GoString Response
  jarUpdate : Jar → Jar

/-- Outcome of one call of `queryAndPrint`: the request bodies it sent, the
texts it wrote to standard output (one per row), and the two values it returns. -/
structure QueryResult where
  requests : List quickSearchReq
  stdout : List GoString
  updated : Bool
  err : Option QueryError

/-- Source `queryAndPrint`, given what `client.Do` does with the request.
`http.NewRequest` cannot fail on the constant method and endpoint. -/
def queryAndPrint (rt : Runtime) (x : Exchange) (term : GoString) (userIDOnly : Bool) :
    QueryResult :=
  let payload : quickSearchReq := { ServiceProviderID := 1, SearchKey := term, Start := 0 }
  match x.result with
  | .error e =>
    { requests := [payload], stdout := [], updated := false, err := some (.transport e) }
  | .ok resp =>
    if resp.StatusCode < 200 ∨ resp.StatusCode ≥ 300 then
      let body := resp.Body.take 2048
      { requests := [payload], stdout := [], updated := false,
        err := some (.http { status := resp.StatusCode, body := TrimSpace body }) }
    else
      match resp.decoded with
      | .error e =>
        { requests := [payload], stdout := [], updated := false, err := some (.decode e) }
      | .ok data =>
        { requests := [payload],
          stdout := data.map (printRow rt userIDOnly),
          updated := true, err := none }

/-! ## The main flow -/

/-- What a run does that can be observed, in order. -/
inductive Event where
  | usage
  | fatalNoAuth
  | request (body : quickSearchReq)
  | stdout (text : GoString)
  | stderrAuthFailed (status : Int)
  | stderrError (e : QueryError)
  | storeCookieFile (cookie : GoString)
deriving DecidableEq

/-- State carried through the loop over the terms: the jar and the events so far. -/
structure State where
  jar : Jar
  trace : List Event

/-- Source `getSavedCookie`, given the `cookie` field of the record in the
store file (`none` when the file cannot be opened or decoded). -/
def getSavedCookie (file : Option GoString) : Except Unit GoString :=
  match file with
  | none => .error ()
  | some c => .ok (TrimSpace c)

/-- Lines 101 to 108 of `main`: the value of `authHeader` after resolution. -/
def resolveAuth (authFlag : GoString) (file : Option GoString) (env : GoString) : GoString :=
  let authHeader := TrimSpace authFlag
  if authHeader = [] then
    match getSavedCookie file with
    | .ok s =>
      if TrimSpace s ≠ [] then s
      else if TrimSpace env ≠ [] then env
      else authHeader
    | .error _ =>
      if TrimSpace env ≠ [] then env
      else authHeader
  else authHeader

/-- The events of the error branch of the loop of `main`. -/
def reportError (err : Option QueryError) : List Event :=
  match err with
  | none => []
  | some (.http he) =>
    if he.status = 401 ∨ he.status = 403 then [.stderrAuthFailed he.status]
    else [.stderrError (.http he)]
  | some e => [.stderrError e]

/-- One round of the loop of `main` over the arguments. -/
def mainStep (rt : Runtime) (userIDOnly : Bool) (x : Exchange) (st : State) (arg : GoString) :
    State :=
  let term := normalizeTerm arg
  let r := queryAndPrint rt x term userIDOnly
  let jar := x.jarUpdate st.jar
  let trace := st.trace ++ r.requests.map Event.request ++ r.stdout.map Event.stdout
    ++ reportError r.err
  if r.updated then
    let hdr := buildCookieHeaderFromJar jar
    if hdr ≠ [] then { jar := jar, trace := trace ++ [.storeCookieFile hdr] }
    else { jar := jar, trace := trace }
  else { jar := jar, trace := trace }

/-- The loop of `main`; `net i` is what the `i`-th call of `client.Do` does. -/
def mainLoop (rt : Runtime) (userIDOnly : Bool) (net : Nat → Exchange) :
    Nat → List GoString → State → State
  | _, [], st => st
  | i, arg :: args, st =>
    mainLoop rt userIDOnly net (i + 1) args (mainStep rt userIDOnly (net i) st arg)

/-- How a run ends: the exit status and the events. -/
structure Run where
  exitCode : Nat
  trace : List Event

/-- Source `main` from line 94 on (no `-h`, `--login` or `--logout`). -/
def mainQuery (rt : Runtime) (userIDOnly : Bool) (authFlag : GoString) (doSave : Bool)
    (file : Option GoString) (env : GoString) (args : List GoString)
    (net : Nat → Exchange) : Run :=
  if args.length = 0 then { exitCode := 2, trace := [.usage] }
  else
    let authHeader := resolveAuth authFlag file env
    if authHeader = [] then { exitCode := 1, trace := [.fatalNoAuth] }
    else
      let saved : List Event :=
        if authFlag ≠ [] ∧ doSave then [.storeCookieFile authHeader] else []
      let jar := seedJarWithCookieHeader [] authHeader
      let st := mainLoop rt userIDOnly net 0 args { jar := jar, trace := saved }
      { exitCode := 0, trace := st.trace }

/-- The request bodies among the events, in order. -/
def requestsOf (trace : List Event) : List quickSearchReq :=
  trace.filterMap (fun e => match e with | .request b => some b | _ => none)

/-! ## Reference descriptions and example inputs -/

/-- The cookie one entry of the header stands for, if any: the entry is trimmed
of white space, must contain `=`, and splits at its first `=` into a name and a
value that are each trimmed again; an entry whose trimmed name is empty stands
for no cookie. -/
def entryCookie (entry : GoString) : Option Cookie :=
  let p := TrimSpace entry
  let name := TrimSpace (p.takeWhile (fun b => b != 0x3D))
  let value := TrimSpace (p.dropWhile (fun b => b != 0x3D)).tail
  if 0x3D ∈ p ∧ name ≠ [] then some { Name := name, Value := value, Path := bytes "/" }
  else none

/-- The cookie of an entry when the name is taken to be the text before the
first `=` and the value everything after it, with no further trimming. -/
def entryCookieVerbatim (entry : GoString) : Option Cookie :=
  let p := TrimSpace entry
  let name := p.takeWhile (fun b => b != 0x3D)
  let value := (p.dropWhile (fun b => b != 0x3D)).tail
  if 0x3D ∈ p ∧ name ≠ [] then some { Name := name, Value := value, Path := bytes "/" }
  else none

/-- Column text that is `-` for an absent field and the stringified value for
any other. -/
def dashIfAbsent (rt : Runtime) (v : JVal) : GoString :=
  match v with
  | .null => bytes "-"
  | v => stringify rt v

/-- The table line built with `dashIfAbsent` for the three optional columns. -/
def tableLineDashIfAbsent (rt : Runtime) (row : Row) : GoString :=
  padRight (stringify rt (row.get "phoneNumber")) 14
    ++ padRight (stringify rt (row.get "userId")) 10
    ++ padRight (stringify rt (row.get "fullName")) 24
    ++ padRight (dashIfAbsent rt (row.get "countryId")) 4
    ++ padRight (dashIfAbsent rt (row.get "companyId")) 6
    ++ padRight (stringify rt (row.get "email")) 54
    ++ padRight (dashIfAbsent rt (row.get "companyName")) 32
    ++ bytes "\n"

/-- Column text of the three optional fields: `-` when the stringified value is
blank, else that value trimmed of white space. -/
def dashIfBlank (rt : Runtime) (v : JVal) : GoString :=
  if TrimSpace (stringify rt v) = [] then bytes "-" else TrimSpace (stringify rt v)

/-- Output of `fmt.Sprintf("%v", v)` at the values the examples below use:
the booleans, and the floats `1e20` and `1.5`. -/
def sprintVTable : JVal → GoString
  | .bool true => bytes "true"
  | .bool false => bytes "false"
  | .num t =>
    if t = ⟨95367431640625, 20⟩ then bytes "1e+20"
    else if t = ⟨3, -1⟩ then bytes "1.5"
    else []
  | _ => []

/-- A runtime whose out-of-range `int64` conversion yields `-2 ^ 63` (amd64). -/
def runtimeAmd64 : Runtime :=
  { sprintV := sprintVTable, int64OutOfRange := fun _ => -two63 }

/-- A runtime whose out-of-range `int64` conversion saturates (arm64). -/
def runtimeArm64 : Runtime :=
  { sprintV := sprintVTable,
    int64OutOfRange := fun t => if t.mant < 0 then -two63 else two63 - 1 }

/-- The float `1e20`, that is `5 ^ 20 * 2 ^ 20`. -/
def float1e20 : Float64 := ⟨95367431640625, 20⟩

/-- The row `userId=42, phoneNumber="555", fullName="Jo", countryId=null`. -/
def exampleRow : Row :=
  [(bytes "userId", .num ⟨42, 0⟩), (bytes "phoneNumber", .str (bytes "555")),
   (bytes "fullName", .str (bytes "Jo")), (bytes "countryId", .null)]

/-- A row whose `countryId` is present and holds the empty string. -/
def emptyCountryRow : Row := [(bytes "countryId", .str [])]

/-- A `200` response whose body is not JSON. -/
def htmlResponse : Exchange :=
  { result := .ok { StatusCode := 200, Body := bytes "<html>",
                    decoded := .error (bytes "invalid character looking for beginning of value") },
    jarUpdate := fun jar => jar }

/-- A `200` response with no rows from a server that sets no cookie. -/
def emptyOkResponse : Exchange :=
  { result := .ok { StatusCode := 200, Body := bytes "\x7b\"data\":[]\x7d", decoded := .ok [] },
    jarUpdate := fun jar => jar }

/-- A `500` response whose body starts with a blank. -/
def paddedErrorResponse : Exchange :=
  { result := .ok { StatusCode := 500, Body := bytes " denied", decoded := .error [] },
    jarUpdate := fun jar => jar }

/-- A network where the first call is answered `403`, the second fails in
transport, and the others get an empty `200`. -/
def flakyNet (i : Nat) : Exchange :=
  if i = 0 then
    { result := .ok { StatusCode := 403, Body := bytes "denied", decoded := .error [] },
      jarUpdate := fun jar => jar }
  else if i = 1 then { result := .error (bytes "timeout"), jarUpdate := fun jar => jar }
  else emptyOkResponse

/-! ## White space trimming -/

theorem spaceSeqs_ne_nil : ∀ q ∈ spaceSeqs, 1 ≤ q.length := by decide

theorem leadingSpaceWidth_pos_iff (s : GoString) :
    leadingSpaceWidth s ≠ 0 ↔ ∃ q ∈ spaceSeqs, q <+: s := by
  unfold leadingSpaceWidth
  constructor
  · intro h
    cases hf : spaceSeqs.find? (fun q => q.isPrefixOf s) with
    | none => simp [hf] at h
    | some q =>
      refine ⟨q, List.mem_of_find?_eq_some hf, ?_⟩
      have := List.find?_some hf
      simpa using this
  · rintro ⟨q, hq, hpre⟩
    cases hf : spaceSeqs.find? (fun q => q.isPrefixOf s) with
    | none =>
      rw [List.find?_eq_none] at hf
      have := hf q hq
      simp [hpre] at this
    | some q' =>
      have := spaceSeqs_ne_nil q' (List.mem_of_find?_eq_some hf)
      simp only
      omega

theorem leadingSpaceWidth_le (s : GoString) : leadingSpaceWidth s ≤ s.length := by
  unfold leadingSpaceWidth
  cases hf : spaceSeqs.find? (fun q => q.isPrefixOf s) with
  | none => simp
  | some q =>
    have := List.find?_some hf
    simp only [List.isPrefixOf_iff_prefix] at this
    exact List.IsPrefix.length_le (by simpa using this)

theorem trailingSpaceWidth_pos_iff (s : GoString) :
    trailingSpaceWidth s ≠ 0 ↔ ∃ q ∈ spaceSeqs, q <:+ s := by
  unfold trailingSpaceWidth
  constructor
  · intro h
    cases hf : spaceSeqs.find? (fun q => q.reverse.isPrefixOf s.reverse) with
    | none => simp [hf] at h
    | some q =>
      refine ⟨q, List.mem_of_find?_eq_some hf, ?_⟩
      have := List.find?_some hf
      simpa [List.reverse_prefix] using this
  · rintro ⟨q, hq, hsuf⟩
    cases hf : spaceSeqs.find? (fun q => q.reverse.isPrefixOf s.reverse) with
    | none =>
      rw [List.find?_eq_none] at hf
      have := hf q hq
      simp [List.reverse_prefix, hsuf] at this
    | some q' =>
      have := spaceSeqs_ne_nil q' (List.mem_of_find?_eq_some hf)
      simp only
      omega

theorem trailingSpaceWidth_le (s : GoString) : trailingSpaceWidth s ≤ s.length := by
  unfold trailingSpaceWidth
  cases hf : spaceSeqs.find? (fun q => q.reverse.isPrefixOf s.reverse) with
  | none => simp
  | some q =>
    have := List.find?_some hf
    have h2 : q <:+ s := by simpa [List.reverse_prefix] using this
    exact List.IsSuffix.length_le h2

theorem trimLeftAux_suffix (n : Nat) (s : GoString) : trimLeftAux n s <:+ s := by
  induction n generalizing s with
  | zero => exact List.suffix_refl s
  | succ n ih =>
    unfold trimLeftAux
    split
    · exact List.suffix_refl s
    · exact (ih _).trans (List.drop_suffix _ _)

theorem trimRightAux_initial (n : Nat) (s : GoString) : trimRightAux n s <+: s := by
  induction n generalizing s with
  | zero => exact List.prefix_refl s
  | succ n ih =>
    unfold trimRightAux
    split
    · exact List.prefix_refl s
    · exact (ih _).trans (List.take_prefix _ _)

theorem trimLeftAux_done (n : Nat) (s : GoString) (h : s.length ≤ n) :
    leadingSpaceWidth (trimLeftAux n s) = 0 := by
  induction n generalizing s with
  | zero =>
    have : s = [] := List.length_eq_zero.mp (by omega)
    subst this
    decide
  | succ n ih =>
    unfold trimLeftAux
    split
    · assumption
    · rename_i hw
      apply ih
      have := leadingSpaceWidth_le s
      simp only [List.length_drop]
      omega

theorem trimRightAux_done (n : Nat) (s : GoString) (h : s.length ≤ n) :
    trailingSpaceWidth (trimRightAux n s) = 0 := by
  induction n generalizing s with
  | zero =>
    have : s = [] := List.length_eq_zero.mp (by omega)
    subst this
    decide
  | succ n ih =>
    unfold trimRightAux
    split
    · assumption
    · rename_i hw
      apply ih
      have := trailingSpaceWidth_le s
      simp only [List.length_take]
      omega

theorem trimLeftAux_fix (n : Nat) (s : GoString) (h : leadingSpaceWidth s = 0) :
    trimLeftAux n s = s := by
  cases n with
  | zero => rfl
  | succ n => unfold trimLeftAux; simp [h]

theorem trimRightAux_fix (n : Nat) (s : GoString) (h : trailingSpaceWidth s = 0) :
    trimRightAux n s = s := by
  cases n with
  | zero => rfl
  | succ n => unfold trimRightAux; simp [h]

theorem leadingSpaceWidth_of_initial {s t : GoString} (hp : s <+: t)
    (h : leadingSpaceWidth t = 0) : leadingSpaceWidth s = 0 := by
  by_contra hne
  obtain ⟨q, hq, hqs⟩ := (leadingSpaceWidth_pos_iff s).mp hne
  exact (leadingSpaceWidth_pos_iff t).mpr ⟨q, hq, hqs.trans hp⟩ h

theorem TrimSpace_part (s : GoString) : TrimSpace s <:+: s := by
  unfold TrimSpace
  exact (trimRightAux_initial _ _).isInfix.trans (trimLeftAux_suffix _ _).isInfix

theorem TrimSpace_length_le (s : GoString) : (TrimSpace s).length ≤ s.length :=
  (TrimSpace_part s).length_le

theorem TrimSpace_nil : TrimSpace [] = [] := by decide

theorem TrimSpace_leading (s : GoString) : leadingSpaceWidth (TrimSpace s) = 0 := by
  unfold TrimSpace
  exact leadingSpaceWidth_of_initial (trimRightAux_initial _ _) (trimLeftAux_done _ _ le_rfl)

theorem TrimSpace_trailing (s : GoString) : trailingSpaceWidth (TrimSpace s) = 0 := by
  unfold TrimSpace
  exact trimRightAux_done _ _ le_rfl

theorem TrimSpace_fix (s : GoString) (h1 : leadingSpaceWidth s = 0)
    (h2 : trailingSpaceWidth s = 0) : TrimSpace s = s := by
  unfold TrimSpace
  simp only [trimLeftAux_fix _ _ h1, trimRightAux_fix _ _ h2]

theorem TrimSpace_idem (s : GoString) : TrimSpace (TrimSpace s) = TrimSpace s :=
  TrimSpace_fix _ (TrimSpace_leading s) (TrimSpace_trailing s)

theorem TrimSpace_prefix_of_leading (s : GoString) (h : leadingSpaceWidth s = 0) :
    TrimSpace s <+: s := by
  unfold TrimSpace
  rw [trimLeftAux_fix _ _ h]
  exact trimRightAux_initial _ _


/-! ## Auxiliary facts -/

theorem bytes_plus : bytes "+" = [0x2B] := by decide

theorem bytes_hash : bytes "#" = [0x23] := by decide

theorem ne_nil_of_TrimSpace_ne_nil {s : GoString} (h : TrimSpace s ≠ []) : s ≠ [] := by
  intro hs; subst hs; exact h TrimSpace_nil

/-! ## Cookie header parsing -/

theorem SplitN2_eq (p : GoString) (sep : Nat) :
    SplitN2 p sep =
      if sep ∈ p then [p.takeWhile (fun b => b != sep), (p.dropWhile (fun b => b != sep)).tail]
      else [p] := by
  unfold SplitN2
  rw [List.span_eq_take_drop]
  by_cases h : sep ∈ p
  · simp only [h, if_true]
    cases hd : p.dropWhile (fun b => b != sep) with
    | nil =>
      rw [List.dropWhile_eq_nil_iff] at hd
      have := hd sep h
      simp at this
    | cons x r => simp
  · simp only [h, if_false]
    have hd : p.dropWhile (fun b => b != sep) = [] := by
      rw [List.dropWhile_eq_nil_iff]
      intro x hx
      have : x ≠ sep := fun e => h (e ▸ hx)
      simpa using this
    have ht : p.takeWhile (fun b => b != sep) = p := by
      have := List.takeWhile_append_dropWhile (fun b => b != sep) p
      rw [hd, List.append_nil] at this
      exact this
    rw [hd, ht]

theorem seedStep_eq (cookies : List Cookie) (p : GoString) :
    seedStep cookies p = cookies ++ (entryCookie p).toList := by
  unfold seedStep entryCookie
  simp only [SplitN2_eq]
  by_cases hp : TrimSpace p = []
  · simp [hp]
  · by_cases he : 0x3D ∈ TrimSpace p
    · by_cases hn : TrimSpace ((TrimSpace p).takeWhile (fun b => b != 0x3D)) = []
      · simp [hp, he, hn]
      · simp [hp, he, hn]
    · simp [hp, he]

theorem foldl_seedStep (l : List GoString) (acc : List Cookie) :
    l.foldl seedStep acc = acc ++ l.filterMap entryCookie := by
  induction l generalizing acc with
  | nil => simp
  | cons p ps ih =>
    rw [List.foldl_cons, ih, seedStep_eq]
    cases h : entryCookie p <;> simp [List.filterMap_cons, h]

theorem seedCookies_eq (header : GoString) :
    seedCookies header = (Split header 0x3B).filterMap entryCookie := by
  unfold seedCookies
  rw [foldl_seedStep]; simp

/-! ## The jar and the rebuilt header -/

theorem setCookie_fresh (jar : Jar) (c : Cookie) (h : c.Name ∉ jar.map (fun e => e.Name)) :
    jar.setCookie c = jar ++ [c] := by
  unfold Jar.setCookie
  have : jar.any (fun e => e.Name == c.Name && e.Path == c.Path) = false := by
    rw [List.any_eq_false]
    intro e he
    have hne : e.Name ≠ c.Name := by
      intro heq
      exact h (List.mem_map.mpr ⟨e, he, heq⟩)
    simp [hne]
  simp [this]

theorem SetCookies_fresh (cookies : List Cookie) (jar : Jar)
    (h : ((jar ++ cookies).map (fun e => e.Name)).Nodup) :
    jar.SetCookies cookies = jar ++ cookies := by
  unfold Jar.SetCookies
  induction cookies generalizing jar with
  | nil => simp
  | cons c cs ih =>
    rw [List.foldl_cons]
    have hc : c.Name ∉ jar.map (fun e => e.Name) := by
      rw [List.map_append, List.nodup_append] at h
      intro hmem
      exact h.2.2 hmem (by simp)
    rw [setCookie_fresh jar c hc, ih]
    · simp
    · simpa using h

theorem build_parts (cookies : List Cookie) (acc : List GoString)
    (h : ∀ c ∈ cookies, c.Name ≠ []) :
    cookies.foldl (fun parts c => if c.Name = [] then parts else parts ++ [renderCookie c]) acc
      = acc ++ cookies.map renderCookie := by
  induction cookies generalizing acc with
  | nil => simp
  | cons c cs ih =>
    rw [List.foldl_cons, ih _ (fun d hd => h d (List.mem_cons_of_mem _ hd))]
    simp [h c (List.mem_cons_self _ _)]

theorem build_eq (jar : Jar) (h : ∀ c ∈ jar, c.Name ≠ []) :
    buildCookieHeaderFromJar jar = Join (jar.map renderCookie) (bytes "; ") := by
  unfold buildCookieHeaderFromJar Jar.Cookies
  cases jar with
  | nil => simp [Join]
  | cons c cs =>
    simp only [List.length_cons, Nat.add_one_ne_zero, if_false]
    rw [build_parts _ _ h]
    simp

theorem Join_contains (parts : List GoString) (sep : GoString) (p : GoString) (hp : p ∈ parts) :
    p <:+: Join parts sep := by
  induction parts with
  | nil => simp at hp
  | cons a rest ih =>
    cases rest with
    | nil =>
      simp at hp; subst hp
      simp [Join]
    | cons b rest =>
      unfold Join
      rcases List.mem_cons.mp hp with rfl | h
      · exact ⟨[], sep ++ Join (b :: rest) sep, by simp⟩
      · have := ih h
        exact this.trans (List.suffix_append _ _).isInfix

/-! ## Numbers -/

theorem decimalDigits_digits (fuel n : Nat) :
    ∀ b ∈ decimalDigits fuel n, 0x30 ≤ b ∧ b ≤ 0x39 := by
  induction fuel generalizing n with
  | zero =>
    intro b hb
    simp only [decimalDigits, List.mem_singleton] at hb
    omega
  | succ f ih =>
    intro b hb
    unfold decimalDigits at hb
    split at hb
    · simp only [List.mem_singleton] at hb; omega
    · rcases List.mem_append.mp hb with h | h
      · exact ih _ b h
      · simp only [List.mem_singleton] at h; omega

theorem fmtD_plain (i : Int) : ∀ b ∈ fmtD i, b = 0x2D ∨ (0x30 ≤ b ∧ b ≤ 0x39) := by
  intro b hb
  unfold fmtD fmtNat at hb
  split at hb
  · rcases List.mem_append.mp hb with h | h
    · left
      have : bytes "-" = [0x2D] := by decide
      rw [this] at h
      simpa using h
    · right; exact decimalDigits_digits _ _ b h
  · right; exact decimalDigits_digits _ _ b hb

theorem dropBitsAux_dvd (fuel : Nat) (m e : Nat) (hm : m < 2 ^ 53) :
    2 ^ dropBitsAux fuel (m * 2 ^ e) ∣ m * 2 ^ e := by
  induction fuel generalizing e with
  | zero => simp [dropBitsAux]
  | succ f ih =>
    unfold dropBitsAux
    split
    · simp
    · rename_i hge
      cases e with
      | zero => simp at hge; omega
      | succ e =>
        have h2 : m * 2 ^ (e + 1) / 2 = m * 2 ^ e := by
          rw [pow_succ, ← mul_assoc]; simp
        rw [h2]
        have := ih e
        rw [show 1 + dropBitsAux f (m * 2 ^ e) = dropBitsAux f (m * 2 ^ e) + 1 from by omega,
          pow_succ, pow_succ, ← mul_assoc]
        exact Nat.mul_dvd_mul_right this 2

theorem roundNat53_exact (m e : Nat) (hm : m < 2 ^ 53) :
    roundNat53 (m * 2 ^ e) = m * 2 ^ e := by
  unfold roundNat53 dropBits
  have hd := dropBitsAux_dvd 11 m e hm
  have hr : m * 2 ^ e % 2 ^ dropBitsAux 11 (m * 2 ^ e) = 0 := Nat.mod_eq_zero_of_dvd hd
  have hpos : 0 < 2 ^ dropBitsAux 11 (m * 2 ^ e) := by positivity
  simp only [hr]
  have h1 : ¬ (2 * 0 > 2 ^ dropBitsAux 11 (m * 2 ^ e)
      ∨ (2 * 0 = 2 ^ dropBitsAux 11 (m * 2 ^ e) ∧ m * 2 ^ e / 2 ^ dropBitsAux 11 (m * 2 ^ e) % 2 = 1)) := by
    omega
  rw [if_neg h1]
  exact Nat.div_mul_cancel hd

theorem float64OfInt64_exact (i : Int) (m e : Nat) (hm : m < 2 ^ 53) (hi : i.natAbs = m * 2 ^ e) :
    float64OfInt64 i = i := by
  unfold float64OfInt64
  rw [hi, roundNat53_exact m e hm, ← hi]
  split <;> omega

theorem toInt64_inRange (rt : Runtime) (t : Float64) (h : t.inInt64Range = true) :
    toInt64 rt t = t.trunc := by
  unfold toInt64; simp [h]

theorem eqInt_round_trunc (t : Float64) (hm : t.mant.natAbs < 2 ^ 53) :
    t.eqInt (float64OfInt64 t.trunc) = t.isIntegral := by
  unfold Float64.eqInt Float64.isIntegral Float64.trunc
  by_cases he : 0 ≤ t.exp
  · simp only [he, if_true]
    rw [float64OfInt64_exact _ t.mant.natAbs t.exp.toNat hm
      (by rw [Int.natAbs_mul, Int.natAbs_ofNat])]
    simp
  · simp only [he, if_false]
    set d : Nat := 2 ^ (-t.exp).toNat with hd
    have hdpos : 0 < d := by positivity
    have hle : (t.mant.tdiv (d : Int)).natAbs < 2 ^ 53 := by
      rw [Int.natAbs_tdiv]
      simp only [Int.natAbs_ofNat]
      exact lt_of_le_of_lt (Nat.div_le_self _ _) hm
    rw [float64OfInt64_exact _ (t.mant.tdiv (d : Int)).natAbs 0 hle (by simp)]
    by_cases hdvd : (d : Int) ∣ t.mant
    · have h1 : t.mant.tdiv (d : Int) * (d : Int) = t.mant := Int.tdiv_mul_cancel hdvd
      have h2 : t.mant % (d : Int) = 0 := Int.emod_eq_zero_of_dvd hdvd
      simp [h1, h2]
    · have h1 : ¬ t.mant = t.mant.tdiv (d : Int) * (d : Int) := by
        intro h
        exact hdvd ⟨t.mant.tdiv (d : Int), by rw [mul_comm]; exact h⟩
      have h2 : ¬ t.mant % (d : Int) = 0 := fun h => hdvd (Int.dvd_of_emod_eq_zero h)
      simp [h1, h2]

theorem stringify_num_inRange (rt : Runtime) (t : Float64) (hm : t.mant.natAbs < 2 ^ 53)
    (hr : t.inInt64Range = true) :
    stringify rt (.num t) = if t.isIntegral = true then fmtD t.trunc else rt.sprintV (.num t) := by
  simp only [stringify, toInt64_inRange rt t hr, eqInt_round_trunc t hm]

/-! ## The search call and the loop -/

theorem queryAndPrint_requests (rt : Runtime) (x : Exchange) (term : GoString) (u : Bool) :
    (queryAndPrint rt x term u).requests
      = [{ ServiceProviderID := 1, SearchKey := term, Start := 0 }] := by
  unfold queryAndPrint
  rcases x with ⟨_ | resp, ju⟩
  · rfl
  · simp only
    split
    · rfl
    · cases resp.decoded <;> rfl

theorem requestsOf_append (a b : List Event) :
    requestsOf (a ++ b) = requestsOf a ++ requestsOf b := by
  unfold requestsOf; simp

theorem requestsOf_stdout (l : List GoString) : requestsOf (l.map Event.stdout) = [] := by
  unfold requestsOf
  induction l with
  | nil => rfl
  | cons a l ih => simp [List.filterMap_cons]

theorem requestsOf_reportError (e : Option QueryError) : requestsOf (reportError e) = [] := by
  unfold requestsOf reportError
  cases e with
  | none => rfl
  | some q =>
    cases q with
    | http he => simp only; split <;> rfl
    | transport m => rfl
    | decode m => rfl

theorem mainStep_requests (rt : Runtime) (u : Bool) (x : Exchange) (st : State)
    (arg : GoString) :
    requestsOf (mainStep rt u x st arg).trace
      = requestsOf st.trace ++ [{ ServiceProviderID := 1, SearchKey := normalizeTerm arg, Start := 0 }] := by
  unfold mainStep
  simp only
  split
  · split
    · simp only [requestsOf_append, requestsOf_stdout, requestsOf_reportError,
        queryAndPrint_requests]
      simp [requestsOf]
    · simp only [requestsOf_append, requestsOf_stdout, requestsOf_reportError,
        queryAndPrint_requests]
      simp [requestsOf]
  · simp only [requestsOf_append, requestsOf_stdout, requestsOf_reportError,
      queryAndPrint_requests]
    simp [requestsOf]

theorem mainLoop_requests (rt : Runtime) (u : Bool) (net : Nat → Exchange)
    (args : List GoString) (i : Nat) (st : State) :
    requestsOf (mainLoop rt u net i args st).trace
      = requestsOf st.trace
        ++ args.map (fun a => { ServiceProviderID := 1, SearchKey := normalizeTerm a, Start := 0 }) := by
  induction args generalizing i st with
  | nil => simp [mainLoop]
  | cons a as ih =>
    unfold mainLoop
    rw [ih, mainStep_requests]
    simp

theorem queryAndPrint_updated_iff (rt : Runtime) (x : Exchange) (term : GoString) (u : Bool) :
    (queryAndPrint rt x term u).updated = true ↔
      ∃ resp data, x.result = .ok resp ∧ 200 ≤ resp.StatusCode ∧ resp.StatusCode < 300
        ∧ resp.decoded = .ok data := by
  unfold queryAndPrint
  rcases x with ⟨_ | resp, ju⟩
  · simp
  · simp only
    by_cases hs : resp.StatusCode < 200 ∨ resp.StatusCode ≥ 300
    · simp only [hs, if_true]
      constructor
      · intro h; simp at h
      · rintro ⟨r, d, hr, h1, h2, _⟩
        cases hr
        omega
    · simp only [hs, if_false]
      cases hd : resp.decoded with
      | error e =>
        simp only
        constructor
        · intro h; simp at h
        · rintro ⟨r, d, hr, _, _, h3⟩
          cases hr
          rw [hd] at h3
          cases h3
      | ok data =>
        simp only [true_iff]
        exact ⟨resp, data, rfl, by omega, by omega, hd⟩

theorem queryAndPrint_http_iff (rt : Runtime) (x : Exchange) (term : GoString) (u : Bool)
    (e : httpErr) :
    (queryAndPrint rt x term u).err = some (.http e) ↔
      ∃ resp, x.result = .ok resp ∧ (resp.StatusCode < 200 ∨ 300 ≤ resp.StatusCode)
        ∧ e = { status := resp.StatusCode, body := TrimSpace (resp.Body.take 2048) } := by
  unfold queryAndPrint
  rcases x with ⟨_ | resp, ju⟩
  · simp
  · simp only
    by_cases hs : resp.StatusCode < 200 ∨ resp.StatusCode ≥ 300
    · simp only [hs, if_true]
      constructor
      · intro h
        simp only [Option.some.injEq, QueryError.http.injEq] at h
        exact ⟨resp, rfl, hs, h.symm⟩
      · rintro ⟨r, hr, _, he⟩
        cases hr
        rw [he]
    · simp only [hs, if_false]
      cases hd : resp.decoded with
      | error m =>
        simp only
        constructor
        · intro h; simp at h
        · rintro ⟨r, hr, h1, _⟩
          cases hr
          exact absurd h1 hs
      | ok data =>
        simp only
        constructor
        · intro h; simp at h
        · rintro ⟨r, hr, h1, _⟩
          cases hr
          exact absurd h1 hs

theorem queryAndPrint_http_quiet (rt : Runtime) (x : Exchange) (term : GoString) (u : Bool)
    (e : httpErr) (h : (queryAndPrint rt x term u).err = some (.http e)) :
    (queryAndPrint rt x term u).stdout = [] ∧ (queryAndPrint rt x term u).updated = false := by
  unfold queryAndPrint at h ⊢
  rcases x with ⟨_ | resp, ju⟩
  · simp
  · simp only at h ⊢
    by_cases hs : resp.StatusCode < 200 ∨ resp.StatusCode ≥ 300
    · simp [hs]
    · simp only [hs, if_false] at h ⊢
      cases hd : resp.decoded with
      | error m => simp
      | ok data => rw [hd] at h; simp at h

/-! ## Rendering and padding -/

theorem padRight_of_le (s : GoString) (w : Int) (h : w ≤ (s.length : Int)) :
    padRight s w = s := by
  unfold padRight
  by_cases h0 : w ≤ 0
  · simp [h0]
  · simp [h0, h]

theorem padRight_of_lt (s : GoString) (w : Int) (h : (s.length : Int) < w) :
    padRight s w = s ++ List.replicate (w - s.length).toNat 0x20 := by
  unfold padRight Repeat
  have h0 : ¬ w ≤ 0 := by omega
  have h1 : ¬ (s.length : Int) ≥ w := by omega
  simp [h0, h1]

theorem padRight_length (s : GoString) (w : Int) :
    ((padRight s w).length : Int) = max (s.length : Int) w := by
  by_cases h : w ≤ (s.length : Int)
  · rw [padRight_of_le s w h, max_eq_left h]
  · have h' : (s.length : Int) < w := by omega
    rw [padRight_of_lt s w h', List.length_append, List.length_replicate]
    push_cast
    rw [Int.toNat_of_nonneg (by omega), max_eq_right (by omega)]
    omega

theorem orDash_eq (rt : Runtime) (v : JVal) : orDash rt v = dashIfBlank rt v := by
  unfold orDash dashIfBlank
  cases v <;> simp [stringify, TrimSpace_nil]

theorem stringify_42 (rt : Runtime) : stringify rt (.num ⟨42, 0⟩) = bytes "42" := by
  rw [stringify_num_inRange rt ⟨42, 0⟩ (by decide) (by decide)]
  have hi : (⟨42, 0⟩ : Float64).isIntegral = true := by decide
  rw [if_pos hi]
  decide

theorem exampleRow_line (rt : Runtime) :
    printRow rt false exampleRow
      = bytes "555" ++ List.replicate 11 0x20 ++ bytes "42" ++ List.replicate 8 0x20
        ++ bytes "Jo" ++ List.replicate 22 0x20 ++ bytes "-" ++ List.replicate 3 0x20
        ++ bytes "-" ++ List.replicate 5 0x20 ++ List.replicate 54 0x20
        ++ bytes "-" ++ List.replicate 31 0x20 ++ bytes "\n" := by
  have h1 : exampleRow.get "phoneNumber" = .str (bytes "555") := by rfl
  have h2 : exampleRow.get "userId" = .num ⟨42, 0⟩ := by rfl
  have h3 : exampleRow.get "fullName" = .str (bytes "Jo") := by rfl
  have h4 : exampleRow.get "countryId" = .null := by rfl
  have h5 : exampleRow.get "companyId" = .null := by rfl
  have h6 : exampleRow.get "email" = .null := by rfl
  have h7 : exampleRow.get "companyName" = .null := by rfl
  simp only [printRow, h1, h2, h3, h4, h5, h6, h7, stringify_42]
  simp only [orDash, stringify, Bool.false_eq_true, if_false]
  decide

theorem exampleRow_ids (rt : Runtime) : printRow rt true exampleRow = bytes "42\n" := by
  have h2 : exampleRow.get "userId" = .num ⟨42, 0⟩ := by rfl
  simp only [printRow, h2, stringify_42, if_true]
  decide

theorem entryCookie_shape (entry : GoString) (c : Cookie) (h : entryCookie entry = some c) :
    c.Path = bytes "/" ∧ c.Name ≠ [] := by
  unfold entryCookie at h
  simp only at h
  split at h
  · rename_i hc
    cases h
    exact ⟨rfl, hc.2⟩
  · cases h

theorem seedCookies_shape (header : GoString) :
    ∀ c ∈ seedCookies header, c.Path = bytes "/" ∧ c.Name ≠ [] := by
  intro c hc
  rw [seedCookies_eq, List.mem_filterMap] at hc
  obtain ⟨e, _, he⟩ := hc
  exact entryCookie_shape e c he

theorem eqInt_trunc_of_isIntegral (t : Float64) (h : t.isIntegral = true) :
    t.eqInt t.trunc = true := by
  unfold Float64.eqInt Float64.trunc
  unfold Float64.isIntegral at h
  by_cases he : 0 ≤ t.exp
  · simp [he]
  · simp only [he, if_false] at h ⊢
    have hdvd : ((2 ^ (-t.exp).toNat : Nat) : Int) ∣ t.mant :=
      Int.dvd_of_emod_eq_zero (by simpa using h)
    rw [Int.tdiv_mul_cancel hdvd]
    simp

/-! ## The claims of the specification -/

/-- C1 (counterexample). The term of five two-byte letters has 5 characters, fewer
than 9, but 10 bytes: `normalizeTerm` returns it unchanged and prepends no `#`. -/
theorem normalizeTerm_counts_bytes :
    runeCount (bytes "ééééé") = 5
      ∧ (bytes "ééééé").length = 10
      ∧ normalizeTerm (bytes "ééééé") = bytes "ééééé"
      ∧ normalizeTerm (bytes "ééééé") ≠ bytes "#" ++ bytes "ééééé" := by
  decide

/-- C1 (amended). With `t` the term without its one leading `+` (if any),
`normalizeTerm` returns `#` followed by `t` when `t` is shorter than 9 bytes and
`t` itself otherwise; the three examples of the specification hold, and only
one `+` is removed. -/
theorem normalizeTerm_by_byte_length :
    (∀ s : GoString,
      normalizeTerm s =
        if (if s.head? = some 0x2B then s.tail else s).length < 9
        then 0x23 :: (if s.head? = some 0x2B then s.tail else s)
        else (if s.head? = some 0x2B then s.tail else s))
      ∧ normalizeTerm (bytes "+1234") = bytes "#1234"
      ∧ normalizeTerm (bytes "123456789") = bytes "123456789"
      ∧ normalizeTerm (bytes "+123456789") = bytes "123456789"
      ∧ normalizeTerm (bytes "++1234") = bytes "#+1234" := by
  refine ⟨fun s => ?_, by decide, by decide, by decide, by decide⟩
  unfold normalizeTerm TrimPrefix HasPrefix
  rw [bytes_plus, bytes_hash]
  cases s with
  | nil => simp
  | cons b r =>
    by_cases hb : b = 0x2B
    · subst hb; simp
    · have hb2 : ¬ (0x2B = b) := fun h => hb h.symm
      simp [hb, hb2]

/-- C4. For every string and width, `padRight s w` is `s` followed by spaces
only, its length (in bytes, as `len` counts) is the larger of `len(s)` and `w`;
it is `s` itself when `len(s)` meets or exceeds `w`, and has length exactly `w`
otherwise. -/
theorem padRight_never_truncates (s : GoString) (w : Int) :
    (∃ k, padRight s w = s ++ List.replicate k 0x20)
    ∧ s <+: padRight s w
    ∧ ((padRight s w).length : Int) = max (s.length : Int) w
    ∧ (w ≤ (s.length : Int) → padRight s w = s)
    ∧ ((s.length : Int) < w → ((padRight s w).length : Int) = w) := by
  have hex : ∃ k, padRight s w = s ++ List.replicate k 0x20 := by
    by_cases h : w ≤ (s.length : Int)
    · exact ⟨0, by rw [padRight_of_le s w h]; simp⟩
    · exact ⟨_, padRight_of_lt s w (by omega)⟩
  refine ⟨hex, ?_, padRight_length s w, padRight_of_le s w, fun h => ?_⟩
  · obtain ⟨k, hk⟩ := hex
    rw [hk]
    exact List.prefix_append _ _
  · rw [padRight_length, max_eq_right (by omega)]

/-- C2 (counterexample). A flag with a leading blank resolves to its trimmed
value, not to the flag's value; a flag of one blank is set, yet the stored
cookie is used; and with no flag and no stored cookie a blank environment value
is non-empty, yet the run ends with status 1. -/
theorem resolveAuth_trims_and_skips_blanks :
    resolveAuth (bytes " sid=1") none [] = bytes "sid=1"
      ∧ resolveAuth (bytes " sid=1") none [] ≠ bytes " sid=1"
      ∧ resolveAuth (bytes " ") (some (bytes "f=1")) (bytes "e=1") = bytes "f=1"
      ∧ bytes " " ≠ []
      ∧ (mainQuery runtimeAmd64 false [] false none (bytes " ") [bytes "123456789"]
          flakyNet).exitCode = 1 := by
  decide

/-- C2 (amended). The flag counts when it is not blank and the credential is
then the flag's value trimmed of white space; otherwise, when the stored load
yields a non-empty value, the credential is that value; otherwise, when the
environment value is not blank, the credential is the environment value as it
is; and the run with terms ends with status 1 exactly when the flag is blank,
the load fails or yields the empty string, and the environment value is blank. -/
theorem resolveAuth_precedence (authFlag : GoString) (file : Option GoString)
    (env : GoString) :
    (TrimSpace authFlag ≠ [] → resolveAuth authFlag file env = TrimSpace authFlag)
    ∧ (TrimSpace authFlag = [] → ∀ s, getSavedCookie file = .ok s → s ≠ [] →
        resolveAuth authFlag file env = s)
    ∧ (TrimSpace authFlag = [] → (∀ s, getSavedCookie file = .ok s → s = []) →
        TrimSpace env ≠ [] → resolveAuth authFlag file env = env)
    ∧ (resolveAuth authFlag file env = [] ↔
        TrimSpace authFlag = [] ∧ (∀ s, getSavedCookie file = .ok s → s = [])
          ∧ TrimSpace env = [])
    ∧ (∀ (rt : Runtime) (u doSave : Bool) (args : List GoString) (net : Nat → Exchange),
        args ≠ [] →
        ((mainQuery rt u authFlag doSave file env args net).exitCode = 1 ↔
          resolveAuth authFlag file env = [])) := by
  refine ⟨?_, ?_, ?_, ?_, ?_⟩
  · intro hf
    unfold resolveAuth
    simp [hf]
  · intro hf s hs hne
    unfold resolveAuth
    simp only [hf, if_true, hs]
    cases file with
    | none => simp [getSavedCookie] at hs
    | some c =>
      simp only [getSavedCookie, Except.ok.injEq] at hs
      have : TrimSpace s ≠ [] := by rw [← hs, TrimSpace_idem, hs]; exact hne
      simp [this]
  · intro hf hs he
    unfold resolveAuth
    simp only [hf, if_true]
    cases hg : getSavedCookie file with
    | error e => simp [he]
    | ok s =>
      have := hs s hg
      subst this
      simp [TrimSpace_nil, he]
  · unfold resolveAuth
    by_cases hf : TrimSpace authFlag = []
    · simp only [hf, if_true, true_and]
      cases file with
      | none =>
        simp only [getSavedCookie]
        by_cases he : TrimSpace env = []
        · simp [he]
        · have := ne_nil_of_TrimSpace_ne_nil he
          simp [he, this]
      | some c =>
        simp only [getSavedCookie, TrimSpace_idem]
        by_cases hc : TrimSpace c = []
        · by_cases he : TrimSpace env = []
          · simp [hc, he]
          · have := ne_nil_of_TrimSpace_ne_nil he
            simp [hc, he, this]
        · simp [hc]
    · simp [hf]
  · intro rt u doSave args net hargs
    unfold mainQuery
    have hlen : ¬ args.length = 0 := fun h => hargs (List.length_eq_zero.mp h)
    simp only [hlen, if_false]
    by_cases h : resolveAuth authFlag file env = []
    · simp [h]
    · simp [h]

/-- C2 (witness). The flag `sid=1` wins over a stored cookie and the environment. -/
theorem resolveAuth_precedence_witness :
    TrimSpace (bytes "sid=1") ≠ []
      ∧ resolveAuth (bytes "sid=1") (some (bytes "f=1")) (bytes "e=1")
          = TrimSpace (bytes "sid=1") :=
  ⟨by decide,
   (resolveAuth_precedence (bytes "sid=1") (some (bytes "f=1")) (bytes "e=1")).1 (by decide)⟩

/-- C3 (counterexample). A row whose `countryId` is present and empty prints `-`
in that column, and one whose `countryId` is ` AE ` prints `AE`: in neither is
the column the stringified value padded to 4. -/
theorem printRow_optional_columns_trimmed :
    printRow runtimeAmd64 false emptyCountryRow
        ≠ tableLineDashIfAbsent runtimeAmd64 emptyCountryRow
      ∧ padRight (orDash runtimeAmd64 (emptyCountryRow.get "countryId")) 4 = bytes "-   "
      ∧ padRight (stringify runtimeAmd64 (emptyCountryRow.get "countryId")) 4 = bytes "    "
      ∧ padRight (orDash runtimeAmd64 (JVal.str (bytes " AE "))) 4 = bytes "AE  "
      ∧ padRight (stringify runtimeAmd64 (JVal.str (bytes " AE "))) 4 = bytes " AE " := by
  decide

/-- C3 (amended). In ids-only mode a row prints its stringified `userId` and one
line break. Otherwise it prints seven columns and one line break, with no
separator: `phoneNumber` 14, `userId` 10, `fullName` 24, `countryId` 4,
`companyId` 6, `email` 54, `companyName` 32, each padded by `padRight`; the
first, second, third and sixth hold the stringified value, the other three hold
`-` when the stringified value is blank (so also when the field is absent) and
that value trimmed of white space otherwise. The line is at least 145 bytes
long, and the example row prints the line of the specification. -/
theorem printRow_layout (rt : Runtime) (row : Row) :
    printRow rt true row = stringify rt (row.get "userId") ++ [0x0A]
    ∧ printRow rt false row
        = padRight (stringify rt (row.get "phoneNumber")) 14
          ++ padRight (stringify rt (row.get "userId")) 10
          ++ padRight (stringify rt (row.get "fullName")) 24
          ++ padRight (dashIfBlank rt (row.get "countryId")) 4
          ++ padRight (dashIfBlank rt (row.get "companyId")) 6
          ++ padRight (stringify rt (row.get "email")) 54
          ++ padRight (dashIfBlank rt (row.get "companyName")) 32
          ++ [0x0A]
    ∧ dashIfBlank rt JVal.null = bytes "-"
    ∧ 145 ≤ (printRow rt false row).length
    ∧ printRow rt true exampleRow = bytes "42\n"
    ∧ (bytes "555" ++ List.replicate 11 0x20 ++ bytes "42" ++ List.replicate 8 0x20
        ++ bytes "Jo" ++ List.replicate 22 0x20 ++ bytes "-" ++ List.replicate 3 0x20)
        <+: printRow rt false exampleRow := by
  have hnl : bytes "\n" = [0x0A] := by decide
  have hline : printRow rt false row
        = padRight (stringify rt (row.get "phoneNumber")) 14
          ++ padRight (stringify rt (row.get "userId")) 10
          ++ padRight (stringify rt (row.get "fullName")) 24
          ++ padRight (dashIfBlank rt (row.get "countryId")) 4
          ++ padRight (dashIfBlank rt (row.get "companyId")) 6
          ++ padRight (stringify rt (row.get "email")) 54
          ++ padRight (dashIfBlank rt (row.get "companyName")) 32
          ++ [0x0A] := by
    simp only [printRow, orDash_eq, hnl]
    simp
  refine ⟨by simp [printRow, hnl], hline, ?_, ?_, exampleRow_ids rt, ?_⟩
  · simp [dashIfBlank, stringify, TrimSpace_nil]
  · rw [hline]
    simp only [List.length_append, List.length_singleton]
    have h1 := padRight_length (stringify rt (row.get "phoneNumber")) 14
    have h2 := padRight_length (stringify rt (row.get "userId")) 10
    have h3 := padRight_length (stringify rt (row.get "fullName")) 24
    have h4 := padRight_length (dashIfBlank rt (row.get "countryId")) 4
    have h5 := padRight_length (dashIfBlank rt (row.get "companyId")) 6
    have h6 := padRight_length (stringify rt (row.get "email")) 54
    have h7 := padRight_length (dashIfBlank rt (row.get "companyName")) 32
    omega
  · rw [exampleRow_line]
    simp only [List.append_assoc]
    repeat (first | exact List.prefix_append _ _ | apply (List.prefix_append_right_inj _).mpr)

/-- C5 (counterexample). The header `a = 1` installs the cookie named `a` with
value `1`, not the text before the first `=` (`a` and a blank) with everything
after it (a blank and `1`). -/
theorem seedCookies_trims_name_and_value :
    seedCookies (bytes "a = 1") = [{ Name := bytes "a", Value := bytes "1", Path := bytes "/" }]
      ∧ (Split (bytes "a = 1") 0x3B).filterMap entryCookieVerbatim
          = [{ Name := bytes "a ", Value := bytes " 1", Path := bytes "/" }]
      ∧ seedCookies (bytes "a = 1")
          ≠ (Split (bytes "a = 1") 0x3B).filterMap entryCookieVerbatim := by
  decide

/-- C5 (amended). The cookies `seedJarWithCookieHeader` installs are, in header
order, those of the entries of the semicolon-separated list that, once trimmed
of white space, contain `=` and have a name that is not blank: the name is the
text before the first `=` and the value everything after it, each trimmed of
white space, and the path is `/`. When no entry qualifies the jar is left as it
is. The header `novalue; =x; c=3` yields exactly `c=3`, and later `=` stay in
the value. -/
theorem seedCookies_entries (header : GoString) (jar : Jar) :
    seedCookies header = (Split header 0x3B).filterMap entryCookie
    ∧ (∀ c ∈ seedCookies header, c.Path = bytes "/" ∧ c.Name ≠ [])
    ∧ (seedCookies header = [] → seedJarWithCookieHeader jar header = jar)
    ∧ (seedCookies header ≠ [] →
        seedJarWithCookieHeader jar header = jar.SetCookies (seedCookies header))
    ∧ seedCookies (bytes "novalue; =x; c=3")
        = [{ Name := bytes "c", Value := bytes "3", Path := bytes "/" }]
    ∧ seedCookies (bytes "k=a=b")
        = [{ Name := bytes "k", Value := bytes "a=b", Path := bytes "/" }] := by
  refine ⟨seedCookies_eq header, seedCookies_shape header, ?_, ?_, by decide, by decide⟩
  · intro h
    unfold seedJarWithCookieHeader
    simp [h]
  · intro h
    unfold seedJarWithCookieHeader
    have : (seedCookies header).length > 0 := List.length_pos.mpr h
    simp [this]

/-- C5 (witness). The header `c=3` installs one cookie into the empty jar. -/
theorem seedCookies_entries_witness :
    seedCookies (bytes "c=3") ≠ []
      ∧ seedJarWithCookieHeader [] (bytes "c=3") = Jar.SetCookies [] (seedCookies (bytes "c=3")) :=
  ⟨by decide, (seedCookies_entries (bytes "c=3") []).2.2.2.1 (by decide)⟩

/-- C9 (counterexample). The header `a = 1` rebuilds to `a=1`, which does not
contain the entry `a = 1`. In the header `a=1; a =2` the names as written, `a`
and `a` followed by a blank, are distinct, yet both entries install the cookie
`a`: the header rebuilds to `a=2`, which does not contain the entry `a=1`. -/
theorem cookie_round_trip_loses_written_entries :
    buildCookieHeaderFromJar (seedJarWithCookieHeader [] (bytes "a = 1")) = bytes "a=1"
      ∧ ¬ (bytes "a = 1" <:+: buildCookieHeaderFromJar (seedJarWithCookieHeader [] (bytes "a = 1")))
      ∧ (((Split (bytes "a=1; a =2") 0x3B).filterMap entryCookieVerbatim).map
            (fun c => c.Name)).Nodup
      ∧ buildCookieHeaderFromJar (seedJarWithCookieHeader [] (bytes "a=1; a =2")) = bytes "a=2"
      ∧ ¬ (bytes "a=1"
            <:+: buildCookieHeaderFromJar (seedJarWithCookieHeader [] (bytes "a=1; a =2"))) := by
  decide

/-- C9 (amended). Take the cookies `seedJarWithCookieHeader` reads from a header:
those of the entries that, once trimmed, contain `=` and have a name that is
not blank, with name and value trimmed of white space. When their names are
pairwise distinct, seeding the empty jar and rebuilding the header gives those
cookies, each as `name=value`, joined by `; ` in header order, so each of them
occurs in the result; the result is empty when no cookie was read, and the
empty jar gives the empty string. The header `a=1; b=2` rebuilds to itself. -/
theorem cookie_round_trip (header : GoString)
    (h : ((seedCookies header).map (fun c => c.Name)).Nodup) :
    buildCookieHeaderFromJar (seedJarWithCookieHeader [] header)
        = Join ((seedCookies header).map renderCookie) (bytes "; ")
    ∧ (∀ c ∈ seedCookies header,
        renderCookie c <:+: buildCookieHeaderFromJar (seedJarWithCookieHeader [] header))
    ∧ (seedCookies header = [] →
        buildCookieHeaderFromJar (seedJarWithCookieHeader [] header) = [])
    ∧ buildCookieHeaderFromJar [] = []
    ∧ seedCookies header = (Split header 0x3B).filterMap entryCookie
    ∧ buildCookieHeaderFromJar (seedJarWithCookieHeader [] (bytes "a=1; b=2"))
        = bytes "a=1; b=2" := by
  have hjar : seedJarWithCookieHeader [] header = seedCookies header := by
    unfold seedJarWithCookieHeader
    by_cases he : seedCookies header = []
    · simp [he]
    · have : (seedCookies header).length > 0 := List.length_pos.mpr he
      simp only [this, if_true]
      rw [SetCookies_fresh _ _ (by simpa using h)]
      simp
  have hb : buildCookieHeaderFromJar (seedJarWithCookieHeader [] header)
      = Join ((seedCookies header).map renderCookie) (bytes "; ") := by
    rw [hjar]
    exact build_eq _ (fun c hc => (seedCookies_shape header c hc).2)
  refine ⟨hb, ?_, ?_, by decide, seedCookies_eq header, by decide⟩
  · intro c hc
    rw [hb]
    exact Join_contains _ _ _ (List.mem_map_of_mem _ hc)
  · intro he
    rw [hb, he]
    rfl

/-- C9 (witness). Seeding with `a=1; b=2` and rebuilding gives `a=1; b=2`, which
contains both `a=1` and `b=2`. -/
theorem cookie_round_trip_witness :
    ((seedCookies (bytes "a=1; b=2")).map (fun c => c.Name)).Nodup
      ∧ buildCookieHeaderFromJar (seedJarWithCookieHeader [] (bytes "a=1; b=2"))
          = bytes "a=1; b=2"
      ∧ bytes "a=1" <:+: buildCookieHeaderFromJar (seedJarWithCookieHeader [] (bytes "a=1; b=2"))
      ∧ bytes "b=2" <:+: buildCookieHeaderFromJar (seedJarWithCookieHeader [] (bytes "a=1; b=2")) :=
  have hn : ((seedCookies (bytes "a=1; b=2")).map (fun c => c.Name)).Nodup := by decide
  ⟨hn, (cookie_round_trip (bytes "a=1; b=2") hn).1.trans (by decide),
    (cookie_round_trip (bytes "a=1; b=2") hn).2.1
      { Name := bytes "a", Value := bytes "1", Path := bytes "/" } (by decide),
    (cookie_round_trip (bytes "a=1; b=2") hn).2.1
      { Name := bytes "b", Value := bytes "2", Path := bytes "/" } (by decide)⟩

/-- C6 (counterexample). A `200` response whose body does not decode makes
`queryAndPrint` return `false`; and after a decoded `200` response a run whose
jar holds no cookie stores nothing. -/
theorem sessionUpdated_false_on_undecodable_2xx :
    (queryAndPrint runtimeAmd64 htmlResponse (bytes "123456789") false).updated = false
      ∧ (queryAndPrint runtimeAmd64 emptyOkResponse (bytes "123456789") false).updated = true
      ∧ (mainQuery runtimeAmd64 false (bytes "token") false none [] [bytes "123456789"]
            (fun _ => emptyOkResponse)).trace
          = [Event.request { ServiceProviderID := 1, SearchKey := bytes "123456789", Start := 0 }] := by
  decide

/-- C6 (amended). `queryAndPrint` returns `true` exactly when the request got a
response with a status in 200..299 whose body decoded; it returns `false` when
the request fails in transport, when the status is outside 200..299, and when
the body of a 2xx response does not decode. After a call that returned `true`
the loop of `main` rebuilds the header from the jar and stores it when it is not
empty; after any other call it stores nothing. -/
theorem sessionUpdated_iff_decoded_2xx (rt : Runtime) (x : Exchange) (term : GoString)
    (u : Bool) (st : State) :
    ((queryAndPrint rt x term u).updated = true ↔
      ∃ resp data, x.result = .ok resp ∧ 200 ≤ resp.StatusCode ∧ resp.StatusCode < 300
        ∧ resp.decoded = .ok data)
    ∧ (mainStep rt u x st term).trace
        = st.trace
          ++ (queryAndPrint rt x (normalizeTerm term) u).requests.map Event.request
          ++ (queryAndPrint rt x (normalizeTerm term) u).stdout.map Event.stdout
          ++ reportError (queryAndPrint rt x (normalizeTerm term) u).err
          ++ (if (queryAndPrint rt x (normalizeTerm term) u).updated = true
                ∧ buildCookieHeaderFromJar (x.jarUpdate st.jar) ≠ []
              then [Event.storeCookieFile (buildCookieHeaderFromJar (x.jarUpdate st.jar))]
              else []) := by
  refine ⟨queryAndPrint_updated_iff rt x term u, ?_⟩
  unfold mainStep
  by_cases hu : (queryAndPrint rt x (normalizeTerm term) u).updated = true
  · by_cases hb : buildCookieHeaderFromJar (x.jarUpdate st.jar) = []
    · simp [hu, hb]
    · simp [hu, hb]
  · simp [hu]

/-- C7 (counterexample). A `500` response whose body is a blank followed by
`denied` gives the `httpErr` with body `denied`: the blank at the start of the
response body is gone, so the error body is not taken from the start of the
response body. -/
theorem httpErr_body_drops_leading_blank :
    (queryAndPrint runtimeAmd64 paddedErrorResponse (bytes "123456789") false).err
        = some (.http { status := 500, body := bytes "denied" })
      ∧ ¬ (bytes "denied" <+: bytes " denied")
      ∧ bytes "denied" ≠ (bytes " denied").take 2048 := by
  decide

/-- C7 (amended). `queryAndPrint` returns an `httpErr` exactly when the request
got a response whose status is outside 200..299. The error then carries that
status and, as body, the first 2048 bytes of the response body trimmed of
surrounding white space: at most 2048 bytes, a part of those first 2048 bytes,
and a prefix of the response body when that body does not start with white
space. No row is printed and the flag is `false`. A response with a status in
200..299 never gives an `httpErr`. -/
theorem queryAndPrint_httpErr (rt : Runtime) (x : Exchange) (term : GoString) (u : Bool) :
    (∀ e : httpErr, (queryAndPrint rt x term u).err = some (.http e) ↔
      ∃ resp, x.result = .ok resp ∧ (resp.StatusCode < 200 ∨ 300 ≤ resp.StatusCode)
        ∧ e = { status := resp.StatusCode, body := TrimSpace (resp.Body.take 2048) })
    ∧ (∀ e : httpErr, (queryAndPrint rt x term u).err = some (.http e) →
        (queryAndPrint rt x term u).stdout = []
          ∧ (queryAndPrint rt x term u).updated = false)
    ∧ (∀ (e : httpErr) (resp : Response), x.result = .ok resp →
        (queryAndPrint rt x term u).err = some (.http e) →
        e.status = resp.StatusCode
          ∧ e.body.length ≤ 2048
          ∧ e.body <:+: resp.Body.take 2048
          ∧ (leadingSpaceWidth resp.Body = 0 → e.body <+: resp.Body))
    ∧ (∀ (e : httpErr) (resp : Response), x.result = .ok resp →
        200 ≤ resp.StatusCode → resp.StatusCode < 300 →
        (queryAndPrint rt x term u).err ≠ some (.http e)) := by
  refine ⟨queryAndPrint_http_iff rt x term u, queryAndPrint_http_quiet rt x term u, ?_, ?_⟩
  · intro e resp hr he
    obtain ⟨r, hr', _, heq⟩ := (queryAndPrint_http_iff rt x term u e).mp he
    rw [hr] at hr'
    cases hr'
    subst heq
    refine ⟨rfl, ?_, TrimSpace_part _, ?_⟩
    · have h1 := TrimSpace_length_le (resp.Body.take 2048)
      have h2 : (resp.Body.take 2048).length ≤ 2048 := by
        rw [List.length_take]; omega
      simp only
      omega
    · intro hl
      have hp : resp.Body.take 2048 <+: resp.Body := List.take_prefix _ _
      exact (TrimSpace_prefix_of_leading _ (leadingSpaceWidth_of_initial hp hl)).trans hp
  · intro e resp hr h1 h2 he
    obtain ⟨r, hr', hs, _⟩ := (queryAndPrint_http_iff rt x term u e).mp he
    rw [hr] at hr'
    cases hr'
    omega

/-- C7 (witness). A `403` response with body `denied` gives the `httpErr` with
status 403 and body `denied`. -/
theorem queryAndPrint_httpErr_witness :
    (queryAndPrint runtimeAmd64 (flakyNet 0) (bytes "123456789") false).err
        = some (.http { status := 403, body := bytes "denied" })
      ∧ (queryAndPrint runtimeAmd64 (flakyNet 0) (bytes "123456789") false).stdout = []
      ∧ (queryAndPrint runtimeAmd64 (flakyNet 0) (bytes "123456789") false).updated = false :=
  have he : (queryAndPrint runtimeAmd64 (flakyNet 0) (bytes "123456789") false).err
      = some (.http { status := 403, body := bytes "denied" }) := by decide
  ⟨he, (queryAndPrint_httpErr runtimeAmd64 (flakyNet 0) (bytes "123456789") false).2.1 _ he⟩

/-- C8. For every non-empty list of terms, whatever each request meets (a
transport failure, any status, a body that does not decode, success), a run
that resolved a credential sends exactly one request per term, in argument
order, the request for a term having the body
`serviceProviderId: 1, searchKey: normalizeTerm(term), start: 0`; no failure
stops the run, which ends with status 0. -/
theorem main_one_request_per_term (rt : Runtime) (u : Bool) (authFlag : GoString)
    (doSave : Bool) (file : Option GoString) (env : GoString) (args : List GoString)
    (net : Nat → Exchange)
    (hargs : args ≠ []) (hauth : resolveAuth authFlag file env ≠ []) :
    requestsOf (mainQuery rt u authFlag doSave file env args net).trace
        = args.map (fun a => { ServiceProviderID := 1, SearchKey := normalizeTerm a, Start := 0 })
      ∧ (mainQuery rt u authFlag doSave file env args net).exitCode = 0 := by
  unfold mainQuery
  have hlen : ¬ args.length = 0 := fun h => hargs (List.length_eq_zero.mp h)
  simp only [hlen, hauth, if_false]
  refine ⟨?_, trivial⟩
  rw [mainLoop_requests]
  split <;> simp [requestsOf]

/-- C8 (witness). Three terms, the first answered `403`, the second failing in
transport, the third succeeding: three requests are sent, in order. -/
theorem main_one_request_per_term_witness :
    [bytes "+1234", bytes "x", bytes "123456789"] ≠ []
      ∧ resolveAuth (bytes "a=1") none [] ≠ []
      ∧ requestsOf (mainQuery runtimeAmd64 false (bytes "a=1") false none []
            [bytes "+1234", bytes "x", bytes "123456789"] flakyNet).trace
          = [{ ServiceProviderID := 1, SearchKey := bytes "#1234", Start := 0 },
             { ServiceProviderID := 1, SearchKey := bytes "#x", Start := 0 },
             { ServiceProviderID := 1, SearchKey := bytes "123456789", Start := 0 }] :=
  ⟨by decide, by decide,
    (main_one_request_per_term runtimeAmd64 false (bytes "a=1") false none []
      [bytes "+1234", bytes "x", bytes "123456789"] flakyNet (by decide) (by decide)).1.trans
      (by decide)⟩

/-- C10 (counterexample). The float `1e20` is a whole number, yet `stringify`
renders it with the default formatting, in exponent form, under either rule for
the out-of-range conversion, and not as the plain decimal integer. -/
theorem stringify_1e20_uses_default_format :
    float1e20.isIntegral = true
      ∧ float1e20.trunc = 100000000000000000000
      ∧ stringify runtimeAmd64 (.num float1e20) = runtimeAmd64.sprintV (.num float1e20)
      ∧ stringify runtimeArm64 (.num float1e20) = runtimeArm64.sprintV (.num float1e20)
      ∧ stringify runtimeAmd64 (.num float1e20) = bytes "1e+20"
      ∧ stringify runtimeAmd64 (.num float1e20) ≠ fmtD 100000000000000000000 := by
  decide

/-- C10 (amended). `stringify` gives the empty string for null or absent and a
string as it is. For a number inside the `int64` range (from `-2 ^ 63` up to,
not including, `2 ^ 63`) it gives the plain decimal integer (digits and at most
a leading minus sign) when the number is whole, and the default formatting
otherwise. The number 42 gives `42`. -/
theorem stringify_cases (rt : Runtime) (t : Float64) (hv : t.Valid)
    (hr : t.inInt64Range = true) :
    stringify rt JVal.null = []
    ∧ (∀ s, stringify rt (JVal.str s) = s)
    ∧ (t.isIntegral = true →
        stringify rt (JVal.num t) = fmtD t.trunc ∧ t.eqInt t.trunc = true
          ∧ ∀ b ∈ stringify rt (JVal.num t), b = 0x2D ∨ (0x30 ≤ b ∧ b ≤ 0x39))
    ∧ (t.isIntegral = false → stringify rt (JVal.num t) = rt.sprintV (JVal.num t))
    ∧ stringify rt (JVal.num ⟨42, 0⟩) = bytes "42" := by
  have hs := stringify_num_inRange rt t hv.1 hr
  refine ⟨rfl, fun _ => rfl, ?_, ?_, ?_⟩
  · intro hi
    rw [hs, if_pos hi]
    exact ⟨rfl, eqInt_trunc_of_isIntegral t hi, fmtD_plain _⟩
  · intro hi
    rw [hs, hi]
    simp
  · rw [stringify_num_inRange rt ⟨42, 0⟩ (by decide) (by decide)]
    have hi : (⟨42, 0⟩ : Float64).isIntegral = true := by decide
    rw [if_pos hi]
    decide

/-- C10 (witness). The float `-3` is valid, in range and whole, and prints `-3`. -/
theorem stringify_cases_witness :
    (⟨-6, -1⟩ : Float64).Valid ∧ (⟨-6, -1⟩ : Float64).inInt64Range = true
      ∧ stringify runtimeAmd64 (JVal.num ⟨-6, -1⟩) = bytes "-3" :=
  have hv : (⟨-6, -1⟩ : Float64).Valid := by unfold Float64.Valid; decide
  ⟨hv, by decide,
    ((stringify_cases runtimeAmd64 ⟨-6, -1⟩ hv (by decide)).2.2.1 (by decide)).1.trans
      (by decide)⟩

end SolutionsSearchCli
